import Mathlib

/-
Verification of the dual-precision balance bridge (EvmBankKeeper) from
x/evm/keeper/bank_keeper.go.

The bridge wraps an external settlement ledger (cosmos-sdk x/bank, an external
collaborator of this repository).  The ledger is modelled from the spec as a
map from (address, denomination) to arbitrary-precision integer balances,
together with a log of the primitive ledger calls performed (send, mint, burn).
Spendable balances coincide with stored balances in this model (the ledger has
no locking concept in the spec).  Module (escrow) accounts are addresses of the
dedicated form Addr.mod name; user accounts are Addr.base n, so a user account
is never equal to a module account.

Amounts are modelled as Int.  sdkmath.Int.Quo is truncated division
(Int.tdiv) and sdkmath.Int.Mod is Euclidean remainder (Int.emod); both agree
on the non-negative operands produced by validated inputs.
-/

namespace EthermintEvmBank

abbrev Denom := String

inductive Addr where
  | base (n : Nat)
  | mod (name : String)
deriving DecidableEq

structure Coin where
  denom : Denom
  amount : Int
deriving DecidableEq

inductive Err where
  | insufficientFunds
  | invalidCoins
deriving DecidableEq

inductive LedgerOp where
  | send (src dst : Addr) (d : Denom) (amt : Int)
  | mint (m : String) (d : Denom) (amt : Int)
  | burn (m : String) (d : Denom) (amt : Int)
deriving DecidableEq

abbrev Balances := Addr → Denom → Int

def setBal (b : Balances) (a : Addr) (d : Denom) (v : Int) : Balances :=
  fun a2 d2 => if a2 = a ∧ d2 = d then v else b a2 d2

/-- Modelled from the spec: effect of one primitive settlement-ledger call on
the balance map.  A send moves amt of denomination d from src to dst; mint
credits a module account; burn debits a module account. -/
def applyOp (b : Balances) : LedgerOp → Balances
  | .send src dst d amt =>
    let b1 := setBal b src d (b src d - amt)
    setBal b1 dst d (b1 dst d + amt)
  | .mint m d amt => setBal b (Addr.mod m) d (b (Addr.mod m) d + amt)
  | .burn m d amt => setBal b (Addr.mod m) d (b (Addr.mod m) d - amt)

/-- State of the external settlement ledger: balances plus the list of
primitive ledger calls performed so far. -/
structure BankState where
  bal : Balances
  log : List LedgerOp

/-- Modelled from the spec: the ledger send primitive fails when the source
account lacks the funds, otherwise moves the amount and records the call. -/
def bkSend (st : BankState) (src dst : Addr) (d : Denom) (amt : Int) :
    Except Err BankState :=
  if amt ≤ st.bal src d then
    .ok ⟨applyOp st.bal (.send src dst d amt), st.log ++ [.send src dst d amt]⟩
  else
    .error .insufficientFunds

/-- Modelled from the spec: the ledger mint primitive credits a module account
and records the call.  Authorization failures are a fatal, out-of-scope
condition in the spec, so minting always succeeds here. -/
def bkMint (st : BankState) (m : String) (d : Denom) (amt : Int) :
    Except Err BankState :=
  .ok ⟨applyOp st.bal (.mint m d amt), st.log ++ [.mint m d amt]⟩

/-- Modelled from the spec: the ledger burn primitive debits a module account,
failing when the module lacks the funds, and records the call. -/
def bkBurn (st : BankState) (m : String) (d : Denom) (amt : Int) :
    Except Err BankState :=
  if amt ≤ st.bal (Addr.mod m) d then
    .ok ⟨applyOp st.bal (.burn m d amt), st.log ++ [.burn m d amt]⟩
  else
    .error .insufficientFunds

/-- The x/evm module account name (evmtypes.ModuleName). -/
def ModuleName : String := "evm"

/-- ConversionMultiplier between evm and cosmos denom decimals (18 vs 6),
from bank_keeper.go.  The bridge functions below take the multiplier as an
explicit parameter M so that the spec scenarios, which are stated for other
multiplier values, can be instantiated; the source fixes M to this value. -/
def ConversionMultiplier : Int := 1000000000000

structure EvmBankKeeper where
  EvmDenom : Denom
  CosmosDenom : Denom

/-- Strictly increasing denominations, hence sorted with no duplicates. -/
def denomsStrictSorted : List Coin → Bool
  | [] => true
  | [_] => true
  | a :: b :: rest => (decide (a.denom < b.denom)) && denomsStrictSorted (b :: rest)

/-- Modelled from the spec: cosmos-sdk Coins.Validate, an external dependency.
Following the spec (section 4.2) and the source comment in ValidateEvmCoins,
which reads: validate that coins are non-negative, sorted, and no dup denoms,
a coin set is valid when every amount is non-negative and the denominations
are strictly sorted. -/
def coinsValidate (coins : List Coin) : Bool :=
  coins.all (fun c => decide (0 ≤ c.amount)) && denomsStrictSorted coins

/-- ValidateEvmCoins from bank_keeper.go: the coins must be a valid coin set
consisting of exactly one coin whose denomination is the evm denom. -/
def ValidateEvmCoins (coins : List Coin) (evmDenom : Denom) : Except Err Unit :=
  match coins with
  | [] => .ok ()
  | c :: rest =>
    if coinsValidate (c :: rest) then
      match rest with
      | [] => if c.denom = evmDenom then .ok () else .error .invalidCoins
      | _ => .error .invalidCoins
    else
      .error .invalidCoins

/-- SplitAoraiCoins from bank_keeper.go: split an evm-denominated amount into
the equivalent cosmos coin (truncated quotient by M) and the remaining evm
amount (remainder mod M). -/
def SplitAoraiCoins (M : Int) (coins : List Coin)
    (evmDenom cosmosDenom : Denom) : Except Err (Coin × Int) :=
  match coins with
  | [] => .ok (Coin.mk cosmosDenom 0, 0)
  | coin :: rest =>
    match ValidateEvmCoins (coin :: rest) evmDenom with
    | .error e => .error e
    | .ok _ =>
      let remainingBalance := coin.amount.emod M
      let aorai := if 0 < remainingBalance then remainingBalance else 0
      let oraiAmount := coin.amount.tdiv M
      let orai := if 0 < oraiAmount then Coin.mk cosmosDenom oraiAmount
                  else Coin.mk cosmosDenom 0
      .ok (orai, aorai)

/-- GetBalance from bank_keeper.go: total spendable evm-denominated balance of
an account, aggregating the cosmos balance scaled by M with the evm balance.
The source panics when called with any denomination other than the evm denom;
the panic is modelled as the result none. -/
def EvmBankKeeper.GetBalance (ebk : EvmBankKeeper) (M : Int) (st : BankState)
    (addr : Addr) (denom : Denom) : Option Coin :=
  if denom ≠ ebk.EvmDenom then
    none
  else
    let cosmosAmount := st.bal addr ebk.CosmosDenom
    let evmAmount := st.bal addr denom
    some (Coin.mk ebk.EvmDenom (cosmosAmount * M + evmAmount))

/-- MintCoins from bank_keeper.go: split the evm amount and mint each positive
leg to the named module account. -/
def EvmBankKeeper.MintCoins (ebk : EvmBankKeeper) (M : Int) (st : BankState)
    (moduleName : String) (amt : List Coin) : Except Err BankState :=
  match SplitAoraiCoins M amt ebk.EvmDenom ebk.CosmosDenom with
  | .error e => .error e
  | .ok (orai, aorai) =>
    match (if 0 < orai.amount then bkMint st moduleName orai.denom orai.amount
           else .ok st) with
    | .error e => .error e
    | .ok st1 =>
      if 0 < aorai then bkMint st1 moduleName ebk.EvmDenom aorai else .ok st1

/-- BurnCoins from bank_keeper.go: split the evm amount and burn each positive
leg from the named module account. -/
def EvmBankKeeper.BurnCoins (ebk : EvmBankKeeper) (M : Int) (st : BankState)
    (moduleName : String) (amt : List Coin) : Except Err BankState :=
  match SplitAoraiCoins M amt ebk.EvmDenom ebk.CosmosDenom with
  | .error e => .error e
  | .ok (orai, aorai) =>
    match (if 0 < orai.amount then bkBurn st moduleName orai.denom orai.amount
           else .ok st) with
    | .error e => .error e
    | .ok st1 =>
      if 0 < aorai then bkBurn st1 moduleName ebk.EvmDenom aorai else .ok st1

/-- ConvertEvmCoinToCosmosCoin from bank_keeper.go: ensure addr holds the
requested cosmos amount, converting from its evm balance if short.  When the
named module lacks the cosmos funds to deliver (balance at most the needed
amount), the needed coins are minted under the evm module and sent from it. -/
def EvmBankKeeper.ConvertEvmCoinToCosmosCoin (ebk : EvmBankKeeper) (M : Int)
    (st : BankState) (addr : Addr) (moduleName : String) (cosmosCoin : Coin) :
    Except Err BankState :=
  let cosmosAmountToReceive := cosmosCoin.amount
  if ¬ 0 < cosmosAmountToReceive then
    .ok st
  else
    let cosmosBalance := st.bal addr cosmosCoin.denom
    if cosmosAmountToReceive ≤ cosmosBalance then
      .ok st
    else
      let evmAmountToBurn := cosmosAmountToReceive * M
      match bkSend st addr (Addr.mod moduleName) ebk.EvmDenom evmAmountToBurn with
      | .error e => .error e
      | .ok st1 =>
        let moduleBalance := st1.bal (Addr.mod moduleName) ebk.CosmosDenom
        if moduleBalance ≤ cosmosAmountToReceive then
          match bkMint st1 ModuleName ebk.CosmosDenom cosmosAmountToReceive with
          | .error e => .error e
          | .ok st2 =>
            bkSend st2 (Addr.mod ModuleName) addr ebk.CosmosDenom cosmosAmountToReceive
        else
          bkSend st1 (Addr.mod moduleName) addr ebk.CosmosDenom cosmosAmountToReceive

/-- ConvertOneCosmosCoinToEvmCoin from bank_keeper.go: when addr lacks the
needed evm amount, convert exactly one cosmos unit: send one cosmos coin from
addr to the module, then deliver M evm units back to addr, minting them under
the evm module when the named module holds at most M evm units. -/
def EvmBankKeeper.ConvertOneCosmosCoinToEvmCoin (ebk : EvmBankKeeper) (M : Int)
    (st : BankState) (addr : Addr) (moduleName : String) (evmCoinNeeded : Coin) :
    Except Err BankState :=
  let evmBalance := st.bal addr ebk.EvmDenom
  if evmCoinNeeded.amount ≤ evmBalance then
    .ok st
  else
    let cosmosCoinToStore : Int := 1
    match bkSend st addr (Addr.mod moduleName) ebk.CosmosDenom cosmosCoinToStore with
    | .error e => .error e
    | .ok st1 =>
      let evmAmount := cosmosCoinToStore * M
      let moduleBalance := st1.bal (Addr.mod moduleName) ebk.EvmDenom
      if moduleBalance ≤ evmAmount then
        match bkMint st1 ModuleName ebk.EvmDenom evmAmount with
        | .error e => .error e
        | .ok st2 => bkSend st2 (Addr.mod ModuleName) addr ebk.EvmDenom evmAmount
      else
        bkSend st1 (Addr.mod moduleName) addr ebk.EvmDenom evmAmount

/-- ConvertRemainingEvmCoinToCosmosCoin from bank_keeper.go: sweep the whole
evm-unit part of the addr balance back into the cosmos denomination. -/
def EvmBankKeeper.ConvertRemainingEvmCoinToCosmosCoin (ebk : EvmBankKeeper)
    (M : Int) (st : BankState) (moduleName : String) (addr : Addr) :
    Except Err BankState :=
  let totalEvmCoin := Coin.mk ebk.EvmDenom (st.bal addr ebk.EvmDenom)
  match SplitAoraiCoins M [totalEvmCoin] ebk.EvmDenom ebk.CosmosDenom with
  | .error e => .error e
  | .ok (cosmosCoin, _) =>
    ebk.ConvertEvmCoinToCosmosCoin M st addr moduleName cosmosCoin

/-- SendCoinsFromModuleToAccount from bank_keeper.go: split the amount, move
each positive leg from the module to the account, then sweep the recipient. -/
def EvmBankKeeper.SendCoinsFromModuleToAccount (ebk : EvmBankKeeper) (M : Int)
    (st : BankState) (senderModule : String) (recipientAddr : Addr)
    (amt : List Coin) : Except Err BankState :=
  match SplitAoraiCoins M amt ebk.EvmDenom ebk.CosmosDenom with
  | .error e => .error e
  | .ok (orai, aorai) =>
    match (if 0 < orai.amount then
             bkSend st (Addr.mod senderModule) recipientAddr orai.denom orai.amount
           else .ok st) with
    | .error e => .error e
    | .ok st1 =>
      match (if 0 < aorai then
               bkSend st1 (Addr.mod senderModule) recipientAddr ebk.EvmDenom aorai
             else .ok st1) with
      | .error e => .error e
      | .ok st2 =>
        ebk.ConvertRemainingEvmCoinToCosmosCoin M st2 senderModule recipientAddr

/-- SendCoinsFromAccountToModule from bank_keeper.go: split the amount; for
the cosmos leg, top up the sender by converting evm coins if needed, then
send; for the evm leg, top up the sender by converting one cosmos unit if
needed, then send; finally sweep the sender. -/
def EvmBankKeeper.SendCoinsFromAccountToModule (ebk : EvmBankKeeper) (M : Int)
    (st : BankState) (senderAddr : Addr) (recipientModule : String)
    (amt : List Coin) : Except Err BankState :=
  match SplitAoraiCoins M amt ebk.EvmDenom ebk.CosmosDenom with
  | .error e => .error e
  | .ok (orai, aorai) =>
    match ((if 0 < orai.amount then
             match ebk.ConvertEvmCoinToCosmosCoin M st senderAddr recipientModule orai with
             | .error e => .error e
             | .ok sta =>
               bkSend sta senderAddr (Addr.mod recipientModule) orai.denom orai.amount
           else .ok st) : Except Err BankState) with
    | .error e => .error e
    | .ok st1 =>
      let evmCoin := Coin.mk ebk.EvmDenom aorai
      match ((if 0 < evmCoin.amount then
               match ebk.ConvertOneCosmosCoinToEvmCoin M st1 senderAddr recipientModule evmCoin with
               | .error e => .error e
               | .ok stb =>
                 bkSend stb senderAddr (Addr.mod recipientModule) evmCoin.denom evmCoin.amount
             else .ok st1) : Except Err BankState) with
      | .error e => .error e
      | .ok st2 =>
        ebk.ConvertRemainingEvmCoinToCosmosCoin M st2 recipientModule senderAddr

/-- One bridge-level send call, for stating properties of call sequences. -/
inductive BridgeCall where
  | toModule (sender : Addr) (m : String) (amt : List Coin)
  | toAccount (m : String) (recipient : Addr) (amt : List Coin)

def runCall (ebk : EvmBankKeeper) (M : Int) (st : BankState) :
    BridgeCall → Except Err BankState
  | .toModule sender m amt => ebk.SendCoinsFromAccountToModule M st sender m amt
  | .toAccount m recipient amt => ebk.SendCoinsFromModuleToAccount M st m recipient amt

def runCalls (ebk : EvmBankKeeper) (M : Int) (st : BankState) :
    List BridgeCall → Except Err BankState
  | [] => .ok st
  | c :: rest =>
    match runCall ebk M st c with
    | .error e => .error e
    | .ok st1 => runCalls ebk M st1 rest

/-- Value of one account in evm-denomination units: cosmos balance scaled by
the multiplier plus the evm balance (spec section 3, Account Balance). -/
def accountValue (M : Int) (cosmosDenom evmDenom : Denom) (b : Balances)
    (a : Addr) : Int :=
  b a cosmosDenom * M + b a evmDenom

/-- Total value of a list of accounts. -/
def sumValue (M : Int) (cosmosDenom evmDenom : Denom) (L : List Addr)
    (b : Balances) : Int :=
  (L.map (accountValue M cosmosDenom evmDenom b)).sum

/-- Observable view of a ledger-call result: the balances at the given
account/denomination pairs together with the ledger-call log, or none when
the call returned an error. -/
def okView (r : Except Err BankState) (slots : List (Addr × Denom)) :
    Option (List Int × List LedgerOp) :=
  match r with
  | .ok s => some (slots.map (fun p => s.bal p.1 p.2), s.log)
  | .error _ => none

/-- Whether a ledger-call result is a success. -/
def isOkB (r : Except Err BankState) : Bool :=
  match r with
  | .ok _ => true
  | .error _ => false

/-- Total value of a list of accounts in the result state, or none on error. -/
def okSum (r : Except Err BankState) (M : Int) (cosmosDenom evmDenom : Denom)
    (L : List Addr) : Option Int :=
  match r with
  | .ok s => some (sumValue M cosmosDenom evmDenom L s.bal)
  | .error _ => none

def aoraiDenom : Denom := "aorai"

def oraiDenom : Denom := "orai"

def escrowName : String := "escrow"

/-- The keeper instance used for concrete scenarios, with the denominations
of this repository. -/
def K0 : EvmBankKeeper :=
  { EvmDenom := aoraiDenom, CosmosDenom := oraiDenom }

def A0 : Addr := Addr.base 0

theorem setBal_apply (b : Balances) (a : Addr) (d : Denom) (v : Int)
    (a2 : Addr) (d2 : Denom) :
    setBal b a d v a2 d2 = if a2 = a ∧ d2 = d then v else b a2 d2 := rfl

/-- Pointwise effect of a send between two distinct accounts. -/
theorem applyOp_send_apply (b : Balances) (s t x : Addr) (d d2 : Denom)
    (amt : Int) (hst : s ≠ t) :
    applyOp b (.send s t d amt) x d2 =
      b x d2 + (if x = t ∧ d2 = d then amt else 0)
        - (if x = s ∧ d2 = d then amt else 0) := by
  simp only [applyOp, setBal_apply]
  by_cases hxt : x = t <;> by_cases hxs : x = s <;> by_cases hd : d2 = d <;>
    simp_all

/-- A send from an account to itself leaves every balance unchanged. -/
theorem applyOp_send_self (b : Balances) (s x : Addr) (d d2 : Denom)
    (amt : Int) :
    applyOp b (.send s s d amt) x d2 = b x d2 := by
  simp only [applyOp, setBal_apply]
  by_cases hxs : x = s <;> by_cases hd : d2 = d <;> simp_all

/-- Pointwise effect of a mint. -/
theorem applyOp_mint_apply (b : Balances) (m : String) (d d2 : Denom)
    (amt : Int) (x : Addr) :
    applyOp b (.mint m d amt) x d2 =
      b x d2 + (if x = Addr.mod m ∧ d2 = d then amt else 0) := by
  simp only [applyOp, setBal_apply]
  by_cases hx : x = Addr.mod m <;> by_cases hd : d2 = d <;> simp_all

theorem accountValue_send_of_ne (M : Int) (cd ed : Denom) (b : Balances)
    (s t x : Addr) (d : Denom) (amt : Int) (hxs : x ≠ s) (hxt : x ≠ t) :
    accountValue M cd ed (applyOp b (.send s t d amt)) x =
      accountValue M cd ed b x := by
  by_cases hst : s = t
  · subst hst; simp [accountValue, applyOp_send_self]
  · simp [accountValue, applyOp_send_apply b s t x _ _ amt hst, hxs, hxt]

theorem accountValue_send_src (M : Int) (cd ed : Denom) (b : Balances)
    (s t : Addr) (d : Denom) (amt : Int) (hst : s ≠ t) :
    accountValue M cd ed (applyOp b (.send s t d amt)) s =
      accountValue M cd ed b s
        - ((if cd = d then amt else 0) * M + (if ed = d then amt else 0)) := by
  have hts : s ≠ t := hst
  simp only [accountValue, applyOp_send_apply b s t s _ _ amt hst]
  by_cases h1 : cd = d <;> by_cases h2 : ed = d <;> simp_all <;> ring

theorem accountValue_send_dst (M : Int) (cd ed : Denom) (b : Balances)
    (s t : Addr) (d : Denom) (amt : Int) (hst : s ≠ t) :
    accountValue M cd ed (applyOp b (.send s t d amt)) t =
      accountValue M cd ed b t
        + ((if cd = d then amt else 0) * M + (if ed = d then amt else 0)) := by
  have htt : t ≠ s := fun h => hst h.symm
  simp only [accountValue, applyOp_send_apply b s t t _ _ amt hst]
  by_cases h1 : cd = d <;> by_cases h2 : ed = d <;> simp_all <;> ring

/-- Summing a function that differs from another at a single member of a
duplicate-free list changes the sum by the difference at that member. -/
theorem sum_map_single {α : Type} [DecidableEq α] (f g : α → Int) (t : α) :
    ∀ (L : List α), L.Nodup → t ∈ L → (∀ a ∈ L, a ≠ t → g a = f a) →
      (L.map g).sum = (L.map f).sum + (g t - f t) := by
  intro L
  induction L with
  | nil => intro _ ht; cases ht
  | cons a rest ih =>
    intro hnd hmem hoff
    rcases List.nodup_cons.mp hnd with ⟨hnotin, hndr⟩
    by_cases hat : a = t
    · subst hat
      have hrest : ∀ x ∈ rest, g x = f x := by
        intro x hx
        exact hoff x (List.mem_cons_of_mem a hx) (fun hxa => hnotin (hxa ▸ hx))
      rw [List.map_cons, List.map_cons, List.sum_cons, List.sum_cons,
        List.map_congr_left hrest]
      ring
    · have hta : t ≠ a := fun h => hat h.symm
      have hmem2 : t ∈ rest := List.mem_of_ne_of_mem hta hmem
      have hoffr : ∀ x ∈ rest, x ≠ t → g x = f x := by
        intro x hx hxt
        exact hoff x (List.mem_cons_of_mem a hx) hxt
      rw [List.map_cons, List.map_cons, List.sum_cons, List.sum_cons,
        ih hndr hmem2 hoffr, hoff a (List.mem_cons_self a rest) hat]
      ring

/-- Summing a function that differs from another only at two members of a
duplicate-free list, with the pairwise sum preserved, preserves the sum. -/
theorem sum_map_pair {α : Type} [DecidableEq α] (f g : α → Int) (s t : α)
    (hst : s ≠ t) :
    ∀ (L : List α), L.Nodup → s ∈ L → t ∈ L →
      (∀ a ∈ L, a ≠ s → a ≠ t → g a = f a) → g s + g t = f s + f t →
      (L.map g).sum = (L.map f).sum := by
  intro L
  induction L with
  | nil => intro _ hs; cases hs
  | cons a rest ih =>
    intro hnd hs ht hoff hsum
    rcases List.nodup_cons.mp hnd with ⟨hnotin, hndr⟩
    by_cases has : a = s
    · have hts : t ≠ a := fun h => hst (has ▸ h.symm)
      have htr : t ∈ rest := List.mem_of_ne_of_mem hts ht
      have hsingle : (rest.map g).sum = (rest.map f).sum + (g t - f t) := by
        apply sum_map_single f g t rest hndr htr
        intro x hx hxt
        have hxs : x ≠ s := by
          intro hxse
          apply hnotin
          rw [has, ← hxse]
          exact hx
        exact hoff x (List.mem_cons_of_mem a hx) hxs hxt
      rw [List.map_cons, List.map_cons, List.sum_cons, List.sum_cons, hsingle,
        has]
      omega
    · by_cases hat : a = t
      · have hss : s ≠ a := fun h => hst (hat ▸ h)
        have hsr : s ∈ rest := List.mem_of_ne_of_mem hss hs
        have hsingle : (rest.map g).sum = (rest.map f).sum + (g s - f s) := by
          apply sum_map_single f g s rest hndr hsr
          intro x hx hxs
          have hxt : x ≠ t := by
            intro hxte
            apply hnotin
            rw [hat, ← hxte]
            exact hx
          exact hoff x (List.mem_cons_of_mem a hx) hxs hxt
        rw [List.map_cons, List.map_cons, List.sum_cons, List.sum_cons, hsingle,
          hat]
        omega
      · have hsa : s ≠ a := fun h => has h.symm
        have hta : t ≠ a := fun h => hat h.symm
        have hsr : s ∈ rest := List.mem_of_ne_of_mem hsa hs
        have htr : t ∈ rest := List.mem_of_ne_of_mem hta ht
        have hoffr : ∀ x ∈ rest, x ≠ s → x ≠ t → g x = f x := by
          intro x hx hxs hxt
          exact hoff x (List.mem_cons_of_mem a hx) hxs hxt
        rw [List.map_cons, List.map_cons, List.sum_cons, List.sum_cons,
          ih hndr hsr htr hoffr hsum, hoff a (List.mem_cons_self a rest) has hat]

/-- A primitive ledger send between accounts of a duplicate-free list
preserves the total value of the list. -/
theorem sumValue_applyOp_send (M : Int) (cd ed : Denom) (L : List Addr)
    (hL : L.Nodup) (b : Balances) (s t : Addr) (d : Denom) (amt : Int)
    (hs : s ∈ L) (ht : t ∈ L) :
    sumValue M cd ed L (applyOp b (.send s t d amt)) =
      sumValue M cd ed L b := by
  by_cases hst : s = t
  · subst hst
    unfold sumValue
    apply congrArg
    apply List.map_congr_left
    intro a _
    unfold accountValue
    rw [applyOp_send_self, applyOp_send_self]
  · unfold sumValue
    apply sum_map_pair (accountValue M cd ed b)
      (accountValue M cd ed (applyOp b (.send s t d amt))) s t hst L hL hs ht
    · intro a _ has hat
      exact accountValue_send_of_ne M cd ed b s t a d amt has hat
    · rw [accountValue_send_src M cd ed b s t d amt hst,
        accountValue_send_dst M cd ed b s t d amt hst]
      ring

/-- The second ledger state extends the first: its log appends new primitive
calls whose effects, folded over the balances, give the new balances. -/
def Steps (st s : BankState) : Prop :=
  ∃ ops, s.log = st.log ++ ops ∧ s.bal = ops.foldl applyOp st.bal

theorem steps_self (st : BankState) : Steps st st :=
  ⟨[], by simp, by simp⟩

theorem steps_trans {a b c : BankState} (h1 : Steps a b) (h2 : Steps b c) :
    Steps a c := by
  obtain ⟨o1, hl1, hb1⟩ := h1
  obtain ⟨o2, hl2, hb2⟩ := h2
  refine ⟨o1 ++ o2, ?_, ?_⟩
  · rw [hl2, hl1, List.append_assoc]
  · rw [hb2, hb1, List.foldl_append]

theorem steps_bkSend {st : BankState} {src dst : Addr} {d : Denom} {amt : Int}
    {s : BankState} (h : bkSend st src dst d amt = .ok s) : Steps st s := by
  unfold bkSend at h
  split at h
  · cases h
    exact ⟨[.send src dst d amt], by simp, by simp⟩
  · cases h

theorem steps_bkMint {st : BankState} {m : String} {d : Denom} {amt : Int}
    {s : BankState} (h : bkMint st m d amt = .ok s) : Steps st s := by
  unfold bkMint at h
  cases h
  exact ⟨[.mint m d amt], by simp, by simp⟩

theorem steps_bkBurn {st : BankState} {m : String} {d : Denom} {amt : Int}
    {s : BankState} (h : bkBurn st m d amt = .ok s) : Steps st s := by
  unfold bkBurn at h
  split at h
  · cases h
    exact ⟨[.burn m d amt], by simp, by simp⟩
  · cases h

theorem steps_convertEvm {ebk : EvmBankKeeper} {M : Int} {st : BankState}
    {addr : Addr} {m : String} {c : Coin} {s : BankState}
    (h : ebk.ConvertEvmCoinToCosmosCoin M st addr m c = .ok s) : Steps st s := by
  unfold EvmBankKeeper.ConvertEvmCoinToCosmosCoin at h
  simp only [] at h
  split at h
  · cases h
    exact steps_self _
  · split at h
    · cases h
      exact steps_self _
    · split at h
      next e heq => cases h
      next st1 heq =>
        have h1 := steps_bkSend heq
        split at h
        · split at h
          next e2 heq2 => cases h
          next st2 heq2 =>
            exact steps_trans h1 (steps_trans (steps_bkMint heq2) (steps_bkSend h))
        · exact steps_trans h1 (steps_bkSend h)

theorem steps_convertOne {ebk : EvmBankKeeper} {M : Int} {st : BankState}
    {addr : Addr} {m : String} {c : Coin} {s : BankState}
    (h : ebk.ConvertOneCosmosCoinToEvmCoin M st addr m c = .ok s) : Steps st s := by
  unfold EvmBankKeeper.ConvertOneCosmosCoinToEvmCoin at h
  simp only [] at h
  split at h
  · cases h
    exact steps_self _
  · split at h
    next e heq => cases h
    next st1 heq =>
      have h1 := steps_bkSend heq
      split at h
      · split at h
        next e2 heq2 => cases h
        next st2 heq2 =>
          exact steps_trans h1 (steps_trans (steps_bkMint heq2) (steps_bkSend h))
      · exact steps_trans h1 (steps_bkSend h)

theorem steps_convertRemaining {ebk : EvmBankKeeper} {M : Int} {st : BankState}
    {m : String} {addr : Addr} {s : BankState}
    (h : ebk.ConvertRemainingEvmCoinToCosmosCoin M st m addr = .ok s) :
    Steps st s := by
  unfold EvmBankKeeper.ConvertRemainingEvmCoinToCosmosCoin at h
  simp only [] at h
  split at h
  · cases h
  · exact steps_convertEvm h

theorem steps_sendToModule {ebk : EvmBankKeeper} {M : Int} {st : BankState}
    {sender : Addr} {m : String} {amt : List Coin} {s : BankState}
    (h : ebk.SendCoinsFromAccountToModule M st sender m amt = .ok s) :
    Steps st s := by
  unfold EvmBankKeeper.SendCoinsFromAccountToModule at h
  simp only [] at h
  split at h
  · cases h
  next orai aorai heq0 =>
    split at h
    next e heq1 => cases h
    next st1 heq1 =>
      have h1 : Steps st st1 := by
        split at heq1
        · split at heq1
          next e2 heq2 => cases heq1
          next sta heq2 =>
            exact steps_trans (steps_convertEvm heq2) (steps_bkSend heq1)
        · cases heq1
          exact steps_self _
      split at h
      next e heq3 => cases h
      next st2 heq3 =>
        have h2 : Steps st1 st2 := by
          split at heq3
          · split at heq3
            next e2 heq4 => cases heq3
            next stb heq4 =>
              exact steps_trans (steps_convertOne heq4) (steps_bkSend heq3)
          · cases heq3
            exact steps_self _
        exact steps_trans h1 (steps_trans h2 (steps_convertRemaining h))

theorem steps_sendToAccount {ebk : EvmBankKeeper} {M : Int} {st : BankState}
    {m : String} {recipient : Addr} {amt : List Coin} {s : BankState}
    (h : ebk.SendCoinsFromModuleToAccount M st m recipient amt = .ok s) :
    Steps st s := by
  unfold EvmBankKeeper.SendCoinsFromModuleToAccount at h
  split at h
  · cases h
  next orai aorai heq0 =>
    split at h
    next e heq1 => cases h
    next st1 heq1 =>
      have h1 : Steps st st1 := by
        split at heq1
        · exact steps_bkSend heq1
        · cases heq1
          exact steps_self _
      split at h
      next e heq2 => cases h
      next st2 heq2 =>
        have h2 : Steps st1 st2 := by
          split at heq2
          · exact steps_bkSend heq2
          · cases heq2
            exact steps_self _
        exact steps_trans h1 (steps_trans h2 (steps_convertRemaining h))

theorem steps_runCall {ebk : EvmBankKeeper} {M : Int} {st : BankState}
    {c : BridgeCall} {s : BankState} (h : runCall ebk M st c = .ok s) :
    Steps st s := by
  cases c with
  | toModule sender m amt => exact steps_sendToModule h
  | toAccount m recipient amt => exact steps_sendToAccount h

theorem steps_runCalls {ebk : EvmBankKeeper} {M : Int} :
    ∀ (calls : List BridgeCall) (st s : BankState),
      runCalls ebk M st calls = .ok s → Steps st s := by
  intro calls
  induction calls with
  | nil =>
    intro st s h
    cases h
    exact steps_self _
  | cons c rest ih =>
    intro st s h
    unfold runCalls at h
    split at h
    · cases h
    next st1 heq => exact steps_trans (steps_runCall heq) (ih st1 s h)

/-- Whether a primitive ledger call is a send between members of L. -/
def sendWithin (L : List Addr) : LedgerOp → Bool
  | .send src dst _ _ => decide (src ∈ L) && decide (dst ∈ L)
  | _ => false

theorem sumValue_foldl {M : Int} {cd ed : Denom} {L : List Addr}
    (hL : L.Nodup) :
    ∀ (ops : List LedgerOp) (b : Balances),
      (∀ op ∈ ops, sendWithin L op = true) →
      sumValue M cd ed L (ops.foldl applyOp b) = sumValue M cd ed L b := by
  intro ops
  induction ops with
  | nil => intro b _; rfl
  | cons op rest ih =>
    intro b hops
    have hop := hops op (List.mem_cons_self op rest)
    rw [List.foldl_cons]
    cases op with
    | send src dst d amt =>
      have hmem : src ∈ L ∧ dst ∈ L := by
        simpa [sendWithin] using hop
      rw [ih (applyOp b (.send src dst d amt))
        (fun o ho => hops o (List.mem_cons_of_mem _ ho)),
        sumValue_applyOp_send M cd ed L hL b src dst d amt hmem.1 hmem.2]
    | mint m d amt => simp [sendWithin] at hop
    | burn m d amt => simp [sendWithin] at hop

/-- Across any successful ledger evolution whose new primitive calls are all
sends between members of a duplicate-free account list, the total value of
the list is unchanged. -/
theorem sumValue_steps {M : Int} {cd ed : Denom} {L : List Addr}
    (hL : L.Nodup) {st s : BankState} (h : Steps st s)
    (hops : ∀ op ∈ s.log.drop st.log.length, sendWithin L op = true) :
    sumValue M cd ed L s.bal = sumValue M cd ed L st.bal := by
  obtain ⟨ops, hlog, hbal⟩ := h
  rw [hlog, List.drop_left] at hops
  rw [hbal]
  exact sumValue_foldl hL ops st.bal hops

/-- Splitting a single non-negative evm-denominated coin succeeds and returns
the truncated quotient and the Euclidean remainder by the multiplier. -/
theorem SplitAoraiCoins_singleton (M : Int) (hM : 0 < M) (ed cd : Denom)
    (n : Int) (hn : 0 ≤ n) :
    SplitAoraiCoins M [Coin.mk ed n] ed cd
      = .ok (Coin.mk cd (n.tdiv M), n.emod M) := by
  have htd : 0 ≤ n.tdiv M := Int.tdiv_nonneg hn (le_of_lt hM)
  have hem : 0 ≤ n.emod M := Int.emod_nonneg n (ne_of_gt hM)
  have h1 : (if 0 < n.emod M then n.emod M else 0) = n.emod M := by
    by_cases h : 0 < n.emod M
    · simp [h]
    · simp [h]
      omega
  have h2 : (if 0 < n.tdiv M then Coin.mk cd (n.tdiv M) else Coin.mk cd 0)
      = Coin.mk cd (n.tdiv M) := by
    by_cases h : 0 < n.tdiv M
    · simp [h]
    · have hz : n.tdiv M = 0 := le_antisymm (not_lt.mp h) htd
      simp [h, hz]
  simp [SplitAoraiCoins, ValidateEvmCoins, coinsValidate, denomsStrictSorted,
    hn, h1, h2]

def zeroBal : Balances := fun _ _ => 0

def stZero : BankState := ⟨zeroBal, []⟩

/-- Scenario B state: account A0 with settlement balance 3 and high-precision
balance 250000. -/
def stScenarioB : BankState :=
  ⟨fun a d => if a = A0 ∧ d = oraiDenom then 3
    else if a = A0 ∧ d = aoraiDenom then 250000 else 0, []⟩

/-- Claim C2: for every coin set consisting of a single coin of the evm
denomination with non-negative amount n, SplitAoraiCoins returns (w, r) with
no error such that w * M + r = n and 0 ≤ r < M.  (The validation of the coin
set is modelled from the spec, which rejects only negative amounts.) -/
theorem C2_split_conservation (M : Int) (hM : 0 < M) (ed cd : Denom)
    (n : Int) (hn : 0 ≤ n) :
    SplitAoraiCoins M [Coin.mk ed n] ed cd
        = .ok (Coin.mk cd (n.tdiv M), n.emod M)
      ∧ n.tdiv M * M + n.emod M = n
      ∧ 0 ≤ n.emod M ∧ n.emod M < M := by
  refine ⟨SplitAoraiCoins_singleton M hM ed cd n hn, ?_,
    Int.emod_nonneg n (ne_of_gt hM), Int.emod_lt_of_pos n hM⟩
  rw [Int.tdiv_eq_ediv hn (le_of_lt hM)]
  exact Int.ediv_add_emod' n M

/-- Witness for C2 at the concrete input 5200000 with the multiplier of the
source. -/
theorem C2_split_conservation_witness :
    SplitAoraiCoins ConversionMultiplier [Coin.mk aoraiDenom 5200000]
          aoraiDenom oraiDenom
        = .ok (Coin.mk oraiDenom ((5200000 : Int).tdiv ConversionMultiplier),
            (5200000 : Int).emod ConversionMultiplier)
      ∧ (5200000 : Int).tdiv ConversionMultiplier * ConversionMultiplier
          + (5200000 : Int).emod ConversionMultiplier = 5200000
      ∧ 0 ≤ (5200000 : Int).emod ConversionMultiplier
      ∧ (5200000 : Int).emod ConversionMultiplier < ConversionMultiplier :=
  C2_split_conservation ConversionMultiplier (by decide) aoraiDenom oraiDenom
    5200000 (by decide)

/-- Claim C7: GetBalance on the evm denomination returns the spendable cosmos
amount scaled by the multiplier plus the spendable evm amount, for every
account and ledger state; in particular, settlement balance 3 and
high-precision balance 250000 with multiplier 1000000 yield 3250000.
GetBalance is a pure function of the state in this model, so it performs no
state mutation. -/
theorem C7_get_balance :
    (∀ (ebk : EvmBankKeeper) (M : Int) (st : BankState) (addr : Addr),
      ebk.GetBalance M st addr ebk.EvmDenom
        = some (Coin.mk ebk.EvmDenom
            (st.bal addr ebk.CosmosDenom * M + st.bal addr ebk.EvmDenom)))
    ∧ K0.GetBalance 1000000 stScenarioB A0 aoraiDenom
        = some (Coin.mk aoraiDenom 3250000) := by
  constructor
  · intro ebk M st addr
    simp [EvmBankKeeper.GetBalance]
  · decide

/-- Claim C8: GetBalance invoked with any denomination other than the evm
denomination fails fatally (modelled as none), for every account and ledger
state; it never returns a coin in that case. -/
theorem C8_unsupported_denom (ebk : EvmBankKeeper) (M : Int) (st : BankState)
    (addr : Addr) (denom : Denom) (h : denom ≠ ebk.EvmDenom) :
    ebk.GetBalance M st addr denom = none := by
  simp [EvmBankKeeper.GetBalance, h]

/-- Witness for C8: asking for the cosmos denomination fails. -/
theorem C8_unsupported_denom_witness :
    K0.GetBalance ConversionMultiplier stScenarioB A0 oraiDenom = none :=
  C8_unsupported_denom K0 ConversionMultiplier stScenarioB A0 oraiDenom
    (by decide)

/-- Claim C9: minting a single evm coin of amount a mints the truncated
quotient by M in the cosmos denomination and the remainder mod M in the evm
denomination to the named module, skipping any zero leg. -/
theorem C9_mint_splits (ebk : EvmBankKeeper) (M : Int) (st : BankState)
    (m : String) (a : Int) (hM : 0 < M) (ha : 0 ≤ a)
    (hden : ebk.EvmDenom ≠ ebk.CosmosDenom) :
    okView (ebk.MintCoins M st m [Coin.mk ebk.EvmDenom a])
        [(Addr.mod m, ebk.CosmosDenom), (Addr.mod m, ebk.EvmDenom)]
      = some ([st.bal (Addr.mod m) ebk.CosmosDenom + a.tdiv M,
               st.bal (Addr.mod m) ebk.EvmDenom + a.emod M],
          st.log ++
            ((if 0 < a.tdiv M then [LedgerOp.mint m ebk.CosmosDenom (a.tdiv M)]
              else [])
             ++ (if 0 < a.emod M then [LedgerOp.mint m ebk.EvmDenom (a.emod M)]
              else []))) := by
  have htd : 0 ≤ a.tdiv M := Int.tdiv_nonneg ha (le_of_lt hM)
  have hem : 0 ≤ a.emod M := Int.emod_nonneg a (ne_of_gt hM)
  have hcd : ebk.CosmosDenom ≠ ebk.EvmDenom := Ne.symm hden
  unfold EvmBankKeeper.MintCoins
  rw [SplitAoraiCoins_singleton M hM ebk.EvmDenom ebk.CosmosDenom a ha]
  by_cases h1 : 0 < a.tdiv M <;> by_cases h2 : 0 < a.emod M
  · simp only [h1, h2, if_true, bkMint, okView, List.map_cons, List.map_nil,
      applyOp_mint_apply]
    simp [hden, hcd, List.append_assoc]
  · have hz2 : a.emod M = 0 := le_antisymm (not_lt.mp h2) hem
    simp only [h1, h2, if_true, if_false, bkMint, okView, List.map_cons,
      List.map_nil, applyOp_mint_apply]
    simp [hden, hcd, hz2]
  · have hz1 : a.tdiv M = 0 := le_antisymm (not_lt.mp h1) htd
    simp only [h1, h2, if_true, if_false, bkMint, okView, List.map_cons,
      List.map_nil, applyOp_mint_apply]
    simp [hden, hcd, hz1]
  · have hz1 : a.tdiv M = 0 := le_antisymm (not_lt.mp h1) htd
    have hz2 : a.emod M = 0 := le_antisymm (not_lt.mp h2) hem
    simp only [h1, h2, if_false, okView, List.map_cons, List.map_nil]
    simp [hz1, hz2]

/-- Witness for C9: Scenario C, minting 2500000 with multiplier 1000000 mints
2 settlement units and 500000 high-precision units to the escrow. -/
theorem C9_mint_splits_witness :
    okView (K0.MintCoins 1000000 stZero escrowName [Coin.mk aoraiDenom 2500000])
        [(Addr.mod escrowName, oraiDenom), (Addr.mod escrowName, aoraiDenom)]
      = some ([2, 500000],
          [LedgerOp.mint escrowName oraiDenom 2,
           LedgerOp.mint escrowName aoraiDenom 500000]) :=
  (C9_mint_splits K0 1000000 stZero escrowName 2500000 (by decide) (by decide)
    (by decide)).trans (by decide)

/-- Scenario A state as claimed: account A0 with settlement balance 5 and
high-precision balance 0. -/
def stScenarioA : BankState :=
  ⟨fun a d => if a = A0 ∧ d = oraiDenom then 5 else 0, []⟩

/-- Scenario A state amended: account A0 with settlement balance 6 (the sixth
unit funds the one-unit conversion the scenario describes). -/
def stScenarioA6 : BankState :=
  ⟨fun a d => if a = A0 ∧ d = oraiDenom then 6 else 0, []⟩

/-- Claim C3 counterexample: with multiplier 1000000 and account A0 holding
settlement balance 5 and high-precision balance 0 (total value 5000000),
sending 5200000 high-precision units fails with insufficient funds, because
after the 5 settlement units move there is nothing left to convert for the
200000 remainder; the claimed successful run ending at (0, 800000) would
create value. -/
theorem C3_scenarioA_counterexample :
    K0.SendCoinsFromAccountToModule 1000000 stScenarioA A0 escrowName
        [Coin.mk aoraiDenom 5200000]
      = .error .insufficientFunds := by
  rfl

/-- Claim C3 (amended): starting instead from settlement balance 6 and
high-precision balance 0, the send of 5200000 succeeds exactly as the
scenario describes: the split is (5, 200000), the 5 settlement units move
directly, one settlement unit is converted into 1000000 high-precision units
to cover the 200000 remainder, and A0 ends with settlement balance 0 and
high-precision balance 800000. -/
theorem C3_scenarioA_amended :
    SplitAoraiCoins 1000000 [Coin.mk aoraiDenom 5200000] aoraiDenom oraiDenom
        = .ok (Coin.mk oraiDenom 5, 200000)
    ∧ okView (K0.SendCoinsFromAccountToModule 1000000 stScenarioA6 A0
          escrowName [Coin.mk aoraiDenom 5200000])
        [(A0, oraiDenom), (A0, aoraiDenom)]
      = some ([0, 800000],
          [LedgerOp.send A0 (Addr.mod escrowName) oraiDenom 5,
           LedgerOp.send A0 (Addr.mod escrowName) oraiDenom 1,
           LedgerOp.mint ModuleName aoraiDenom 1000000,
           LedgerOp.send (Addr.mod ModuleName) A0 aoraiDenom 1000000,
           LedgerOp.send A0 (Addr.mod escrowName) aoraiDenom 200000]) := by
  constructor
  · rfl
  · decide

/-- The sweep is a no-op on an account whose evm balance is below one whole
settlement unit. -/
theorem convertRemaining_noop (ebk : EvmBankKeeper) (M : Int) (st : BankState)
    (m : String) (addr : Addr) (hM : 0 < M)
    (h0 : 0 ≤ st.bal addr ebk.EvmDenom)
    (hlt : st.bal addr ebk.EvmDenom < M) :
    ebk.ConvertRemainingEvmCoinToCosmosCoin M st m addr = .ok st := by
  have hz : (st.bal addr ebk.EvmDenom).tdiv M = 0 :=
    Int.tdiv_eq_zero_of_lt h0 hlt
  unfold EvmBankKeeper.ConvertRemainingEvmCoinToCosmosCoin
  simp only []
  rw [SplitAoraiCoins_singleton M hM ebk.EvmDenom ebk.CosmosDenom
    (st.bal addr ebk.EvmDenom) h0]
  simp only [hz]
  unfold EvmBankKeeper.ConvertEvmCoinToCosmosCoin
  simp

/-- State with a whole settlement unit of high-precision dust on A0, used to
refute the unconditional forms of claims C1 and C6. -/
def stDust1 : BankState :=
  ⟨fun a d => if a = A0 ∧ d = aoraiDenom then 1000000000000 else 0, []⟩

/-- Claim C6 counterexample: a zero-amount (empty) send from an account
holding one whole settlement unit of high-precision dust succeeds but
triggers the final sweep, performing three ledger calls and changing the
account balances, contradicting the claimed pure no-op for every starting
ledger state. -/
theorem C6_counterexample :
    okView (K0.SendCoinsFromAccountToModule ConversionMultiplier stDust1 A0
        escrowName [])
        [(A0, aoraiDenom), (A0, oraiDenom)]
      = some ([0, 1],
          [LedgerOp.send A0 (Addr.mod escrowName) aoraiDenom 1000000000000,
           LedgerOp.mint ModuleName oraiDenom 1,
           LedgerOp.send (Addr.mod ModuleName) A0 oraiDenom 1])
    ∧ stDust1.bal A0 aoraiDenom = 1000000000000 ∧ stDust1.log = [] := by
  refine ⟨by decide, by decide, rfl⟩

/-- Claim C6 (amended): a zero-amount (empty) send returns no error, performs
no ledger calls and leaves the state unchanged, provided the sender already
holds less than one settlement unit of high-precision dust (otherwise the
final sweep runs, as the counterexample shows). -/
theorem C6_zero_send_amended (ebk : EvmBankKeeper) (M : Int) (st : BankState)
    (sender : Addr) (m : String) (hM : 0 < M)
    (h0 : 0 ≤ st.bal sender ebk.EvmDenom)
    (hlt : st.bal sender ebk.EvmDenom < M) :
    ebk.SendCoinsFromAccountToModule M st sender m [] = .ok st := by
  unfold EvmBankKeeper.SendCoinsFromAccountToModule SplitAoraiCoins
  simp only [lt_irrefl, if_false]
  exact convertRemaining_noop ebk M st m sender hM h0 hlt

/-- State with some small high-precision dust on A0. -/
def stSmallDust : BankState :=
  ⟨fun a d => if a = A0 ∧ d = aoraiDenom then 12345 else 0, []⟩

/-- Witness for the amended C6 at a concrete dust-bounded state. -/
theorem C6_zero_send_amended_witness :
    K0.SendCoinsFromAccountToModule ConversionMultiplier stSmallDust A0
        escrowName [] = .ok stSmallDust :=
  C6_zero_send_amended K0 ConversionMultiplier stSmallDust A0 escrowName
    (by decide) (by decide) (by decide)

/-- The participating accounts of the single-call scenarios: the sender, the
escrow module, and the evm module. -/
def L0 : List Addr := [A0, Addr.mod escrowName, Addr.mod ModuleName]

/-- Claim C1 counterexample: one successful SendCoinsFromAccountToModule (a
sequence with no explicit MintCoins or BurnCoins call) doubles the total
value of the participating accounts from 1000000000000 to 2000000000000: the
sender pays one whole unit of evm coins into the escrow, and the fallback
mints a fresh backing settlement coin instead of burning the evm coins. -/
theorem C1_counterexample :
    okSum (runCalls K0 ConversionMultiplier stDust1
          [BridgeCall.toModule A0 escrowName [Coin.mk aoraiDenom 1000000000000]])
        ConversionMultiplier oraiDenom aoraiDenom L0
      = some 2000000000000
    ∧ sumValue ConversionMultiplier oraiDenom aoraiDenom L0 stDust1.bal
      = 1000000000000 := by
  constructor
  · decide
  · decide

/-- Claim C1 (amended): for every sequence of bridge send calls that succeeds
and whose primitive ledger calls are all sends (the internal mint fallback of
the conversion helpers never fires, and no burn occurs), the sum over any
duplicate-free list of accounts containing every touched account of
settlement_balance * M + high_precision_balance is unchanged. -/
theorem C1_conservation_amended (ebk : EvmBankKeeper) (M : Int)
    (st s : BankState) (calls : List BridgeCall) (L : List Addr)
    (hL : L.Nodup) (h : runCalls ebk M st calls = .ok s)
    (hops : ∀ op ∈ s.log.drop st.log.length, sendWithin L op = true) :
    sumValue M ebk.CosmosDenom ebk.EvmDenom L s.bal
      = sumValue M ebk.CosmosDenom ebk.EvmDenom L st.bal :=
  sumValue_steps hL (steps_runCalls calls st s h) hops

/-- Starting state for the conservation witness: A0 holds 10 settlement
units. -/
def stTenCosmos : BankState :=
  ⟨fun a d => if a = A0 ∧ d = oraiDenom then 10 else 0, []⟩

/-- The single-call sequence sending 3 whole units from A0 into escrow. -/
def callsWitness : List BridgeCall :=
  [BridgeCall.toModule A0 escrowName [Coin.mk aoraiDenom 3000000000000]]

/-- Witness for the amended C1: a successful send whose ledger calls are all
sends preserves the total value of the participating accounts. -/
theorem C1_conservation_amended_witness :
    okSum (runCalls K0 ConversionMultiplier stTenCosmos callsWitness)
        ConversionMultiplier oraiDenom aoraiDenom L0
      = some (sumValue ConversionMultiplier oraiDenom aoraiDenom L0
          stTenCosmos.bal) := by
  cases hrun : runCalls K0 ConversionMultiplier stTenCosmos callsWitness with
  | error e =>
    exfalso
    have hok : isOkB (runCalls K0 ConversionMultiplier stTenCosmos callsWitness)
        = true := by decide
    rw [hrun] at hok
    simp [isOkB] at hok
  | ok s =>
    have hview : okView (runCalls K0 ConversionMultiplier stTenCosmos
          callsWitness) []
        = some ([], [LedgerOp.send A0 (Addr.mod escrowName) oraiDenom 3]) := by
      decide
    rw [hrun] at hview
    simp only [okView, List.map_nil, Option.some.injEq, Prod.mk.injEq,
      true_and] at hview
    have hops : ∀ op ∈ s.log.drop stTenCosmos.log.length,
        sendWithin L0 op = true := by
      rw [show stTenCosmos.log.length = 0 from rfl, List.drop_zero, hview]
      decide
    have hsum2 : sumValue ConversionMultiplier oraiDenom aoraiDenom L0 s.bal
        = sumValue ConversionMultiplier oraiDenom aoraiDenom L0
            stTenCosmos.bal :=
      C1_conservation_amended K0 ConversionMultiplier stTenCosmos s
        callsWitness L0 (by decide) hrun hops
    simp only [okSum]
    rw [hsum2]

theorem base_ne_mod (n : Nat) (m : String) : Addr.base n ≠ Addr.mod m := by
  simp

theorem mod_ne_base (m : String) (n : Nat) : Addr.mod m ≠ Addr.base n := by
  simp

/-- A send changes no balance of another denomination. -/
theorem applyOp_send_other_denom (b : Balances) (s t x : Addr) (d d2 : Denom)
    (amt : Int) (hd : d2 ≠ d) :
    applyOp b (.send s t d amt) x d2 = b x d2 := by
  simp [applyOp, setBal_apply, hd]

theorem bkSend_ok {st : BankState} {src dst : Addr} {d : Denom} {amt : Int}
    {s : BankState} (h : bkSend st src dst d amt = .ok s) :
    amt ≤ st.bal src d
    ∧ s = ⟨applyOp st.bal (.send src dst d amt),
        st.log ++ [.send src dst d amt]⟩ := by
  unfold bkSend at h
  split at h
  next hle =>
    cases h
    exact ⟨hle, rfl⟩
  next => cases h

theorem bkMint_ok {st : BankState} {m : String} {d : Denom} {amt : Int}
    {s : BankState} (h : bkMint st m d amt = .ok s) :
    s = ⟨applyOp st.bal (.mint m d amt), st.log ++ [.mint m d amt]⟩ := by
  unfold bkMint at h
  cases h
  rfl

/-- Complete case analysis of ConvertEvmCoinToCosmosCoin for a user account
and a cosmos-denominated request: either the request is non-positive (no-op),
or the account already holds enough cosmos coins (no-op), or q whole units of
evm coins leave the account and q cosmos coins arrive. -/
theorem convertEvm_final (ebk : EvmBankKeeper) (M : Int)
    (hden : ebk.EvmDenom ≠ ebk.CosmosDenom) (st : BankState) (n : Nat)
    (m : String) (q : Int) (s : BankState)
    (h : ebk.ConvertEvmCoinToCosmosCoin M st (Addr.base n) m
        (Coin.mk ebk.CosmosDenom q) = .ok s) :
    (¬ 0 < q ∧ s = st)
    ∨ (0 < q ∧ q ≤ st.bal (Addr.base n) ebk.CosmosDenom ∧ s = st)
    ∨ (0 < q ∧ st.bal (Addr.base n) ebk.CosmosDenom < q
        ∧ s.bal (Addr.base n) ebk.EvmDenom
            = st.bal (Addr.base n) ebk.EvmDenom - q * M
        ∧ s.bal (Addr.base n) ebk.CosmosDenom
            = st.bal (Addr.base n) ebk.CosmosDenom + q) := by
  have hcd : ebk.CosmosDenom ≠ ebk.EvmDenom := Ne.symm hden
  unfold EvmBankKeeper.ConvertEvmCoinToCosmosCoin at h
  simp only [] at h
  split at h
  next hq =>
    cases h
    exact Or.inl ⟨by simpa using hq, rfl⟩
  next hq =>
    have hq2 : 0 < q := by simpa using hq
    split at h
    next hle =>
      cases h
      exact Or.inr (Or.inl ⟨hq2, by simpa using hle, rfl⟩)
    next hgt =>
      have hgt2 : st.bal (Addr.base n) ebk.CosmosDenom < q := by
        simpa using hgt
      split at h
      next e heq => cases h
      next st1 heq =>
        obtain ⟨hfund, rfl⟩ := bkSend_ok heq
        split at h
        next hmle =>
          split at h
          next e2 heq2 => cases h
          next st2 heq2 =>
            obtain rfl := bkMint_ok heq2
            obtain ⟨hfund2, rfl⟩ := bkSend_ok h
            refine Or.inr (Or.inr ⟨hq2, hgt2, ?_, ?_⟩)
            · simp [applyOp, setBal, hden, hcd]
            · simp [applyOp, setBal, hden, hcd]
        next hmgt =>
          obtain ⟨hfund2, rfl⟩ := bkSend_ok h
          refine Or.inr (Or.inr ⟨hq2, hgt2, ?_, ?_⟩)
          · simp [applyOp, setBal, hden, hcd]
          · simp [applyOp, setBal, hden, hcd]

/-- Complete case analysis of ConvertOneCosmosCoinToEvmCoin for a user
account: either the account already holds the needed evm amount (no-op), or
exactly one cosmos unit leaves the account and M evm units arrive. -/
theorem convertOne_final (ebk : EvmBankKeeper) (M : Int)
    (hden : ebk.EvmDenom ≠ ebk.CosmosDenom) (st : BankState) (n : Nat)
    (m : String) (c : Coin) (s : BankState)
    (h : ebk.ConvertOneCosmosCoinToEvmCoin M st (Addr.base n) m c = .ok s) :
    s = st
    ∨ (s.bal (Addr.base n) ebk.CosmosDenom
          = st.bal (Addr.base n) ebk.CosmosDenom - 1
        ∧ s.bal (Addr.base n) ebk.EvmDenom
          = st.bal (Addr.base n) ebk.EvmDenom + M) := by
  have hcd : ebk.CosmosDenom ≠ ebk.EvmDenom := Ne.symm hden
  unfold EvmBankKeeper.ConvertOneCosmosCoinToEvmCoin at h
  simp only [] at h
  split at h
  next =>
    cases h
    exact Or.inl rfl
  next =>
    split at h
    next e heq => cases h
    next st1 heq =>
      obtain ⟨hfund, rfl⟩ := bkSend_ok heq
      split at h
      next hmle =>
        split at h
        next e2 heq2 => cases h
        next st2 heq2 =>
          obtain rfl := bkMint_ok heq2
          obtain ⟨hfund2, rfl⟩ := bkSend_ok h
          refine Or.inr ⟨?_, ?_⟩
          · simp [applyOp, setBal, hden, hcd]
          · simp [applyOp, setBal, hden, hcd]
      next hmgt =>
        obtain ⟨hfund2, rfl⟩ := bkSend_ok h
        refine Or.inr ⟨?_, ?_⟩
        · simp [applyOp, setBal, hden, hcd]
        · simp [applyOp, setBal, hden, hcd]

/-- A successful split returns a cosmos coin with non-negative amount. -/
theorem split_ok_shape {M : Int} {coins : List Coin} {ed cd : Denom}
    {orai : Coin} {rem : Int}
    (h : SplitAoraiCoins M coins ed cd = .ok (orai, rem)) :
    0 ≤ orai.amount ∧ orai.denom = cd := by
  unfold SplitAoraiCoins at h
  split at h
  · cases h
    exact ⟨le_refl 0, rfl⟩
  next coin rest =>
    split at h
    next e heq => cases h
    next u heq =>
      have hcv : coinsValidate (coin :: rest) = true := by
        unfold ValidateEvmCoins at heq
        simp only [] at heq
        by_cases hv : coinsValidate (coin :: rest) = true
        · exact hv
        · rw [if_neg hv] at heq
          cases heq
      have hnn : 0 ≤ coin.amount := by
        have := (List.all_eq_true.mp
          ((Bool.and_eq_true _ _).mp hcv).1) coin (List.mem_cons_self coin rest)
        simpa using this
      simp only [] at h
      cases h
      constructor
      · split
        next hp => exact le_of_lt hp
        next hp => exact le_refl 0
      · split
        · rfl
        · rfl

/-- A successful sweep is exactly a ConvertEvmCoinToCosmosCoin call requesting
the whole-unit count of the (necessarily non-negative) evm balance. -/
theorem convertRemaining_as_convertEvm {ebk : EvmBankKeeper} {M : Int}
    (hM : 0 < M) {st : BankState} {m : String} {addr : Addr} {s : BankState}
    (h : ebk.ConvertRemainingEvmCoinToCosmosCoin M st m addr = .ok s) :
    0 ≤ st.bal addr ebk.EvmDenom
    ∧ ebk.ConvertEvmCoinToCosmosCoin M st addr m
        (Coin.mk ebk.CosmosDenom ((st.bal addr ebk.EvmDenom).tdiv M)) = .ok s := by
  by_cases hB0 : 0 ≤ st.bal addr ebk.EvmDenom
  · refine ⟨hB0, ?_⟩
    unfold EvmBankKeeper.ConvertRemainingEvmCoinToCosmosCoin at h
    simp only [] at h
    rw [SplitAoraiCoins_singleton M hM ebk.EvmDenom ebk.CosmosDenom
      (st.bal addr ebk.EvmDenom) hB0] at h
    exact h
  · exfalso
    unfold EvmBankKeeper.ConvertRemainingEvmCoinToCosmosCoin at h
    simp only [] at h
    have hsf : SplitAoraiCoins M [Coin.mk ebk.EvmDenom (st.bal addr ebk.EvmDenom)]
        ebk.EvmDenom ebk.CosmosDenom = .error .invalidCoins := by
      unfold SplitAoraiCoins ValidateEvmCoins coinsValidate denomsStrictSorted
      simp [hB0]
    rw [hsf] at h
    cases h

/-- After a successful sweep on a user account, the account either holds less
than one settlement unit of evm dust, or its cosmos balance covers the
whole-unit count of its evm balance (the sweep was skipped). -/
theorem convertRemaining_dust (ebk : EvmBankKeeper) (M : Int) (hM : 0 < M)
    (hden : ebk.EvmDenom ≠ ebk.CosmosDenom) (st : BankState) (m : String)
    (n : Nat) (s : BankState)
    (h : ebk.ConvertRemainingEvmCoinToCosmosCoin M st m (Addr.base n) = .ok s) :
    s.bal (Addr.base n) ebk.EvmDenom < M
    ∨ (s.bal (Addr.base n) ebk.EvmDenom).tdiv M
        ≤ s.bal (Addr.base n) ebk.CosmosDenom := by
  obtain ⟨hB0, h2⟩ := convertRemaining_as_convertEvm hM h
  rcases convertEvm_final ebk M hden st n m
      ((st.bal (Addr.base n) ebk.EvmDenom).tdiv M) s h2 with
    ⟨hq, heqs⟩ | ⟨hq, hle, heqs⟩ | ⟨hq, hlt, hed, hcd2⟩
  · left
    rw [heqs]
    by_contra hge
    push_neg at hge
    apply hq
    rw [Int.tdiv_eq_ediv hB0 (le_of_lt hM)]
    have h1M : (1 : Int) * M ≤ st.bal (Addr.base n) ebk.EvmDenom := by omega
    have h2M := (Int.le_ediv_iff_mul_le hM).mpr h1M
    omega
  · right
    rw [heqs]
    exact hle
  · left
    rw [hed]
    have h1 : (st.bal (Addr.base n) ebk.EvmDenom).tdiv M * M
        + (st.bal (Addr.base n) ebk.EvmDenom).tmod M
        = st.bal (Addr.base n) ebk.EvmDenom := Int.tdiv_add_tmod' _ M
    have h2m : (st.bal (Addr.base n) ebk.EvmDenom).tmod M < M :=
      Int.tmod_lt_of_pos _ hM
    omega

/-- A successful SendCoinsFromAccountToModule ends with a sweep of the sender
from some intermediate state. -/
theorem sendToModule_last {ebk : EvmBankKeeper} {M : Int} {st : BankState}
    {sender : Addr} {m : String} {amt : List Coin} {s : BankState}
    (h : ebk.SendCoinsFromAccountToModule M st sender m amt = .ok s) :
    ∃ st2, ebk.ConvertRemainingEvmCoinToCosmosCoin M st2 m sender = .ok s := by
  unfold EvmBankKeeper.SendCoinsFromAccountToModule at h
  simp only [] at h
  split at h
  · cases h
  next orai aorai heq0 =>
    split at h
    next e heq1 => cases h
    next st1 heq1 =>
      split at h
      next e heq2 => cases h
      next st2 heq2 => exact ⟨st2, h⟩

/-- A successful SendCoinsFromModuleToAccount ends with a sweep of the
recipient from some intermediate state. -/
theorem sendToAccount_last {ebk : EvmBankKeeper} {M : Int} {st : BankState}
    {m : String} {recipient : Addr} {amt : List Coin} {s : BankState}
    (h : ebk.SendCoinsFromModuleToAccount M st m recipient amt = .ok s) :
    ∃ st2, ebk.ConvertRemainingEvmCoinToCosmosCoin M st2 m recipient = .ok s := by
  unfold EvmBankKeeper.SendCoinsFromModuleToAccount at h
  split at h
  · cases h
  next orai aorai heq0 =>
    split at h
    next e heq1 => cases h
    next st1 heq1 =>
      split at h
      next e heq2 => cases h
      next st2 heq2 => exact ⟨st2, h⟩

/-- State where A0 has settlement balance 10 and two whole settlement units
of high-precision dust. -/
def stRichDust : BankState :=
  ⟨fun a d => if a = A0 ∧ d = oraiDenom then 10
    else if a = A0 ∧ d = aoraiDenom then 2000000000000 else 0, []⟩

/-- Claim C4 counterexample: a successful SendCoinsFromAccountToModule of 5
high-precision units from an account with settlement balance 10 and evm
balance 2000000000000 leaves the sender with evm balance 1999999999995, which
is not strictly below the multiplier 1000000000000: the final sweep is
skipped because the account already holds enough settlement balance. -/
theorem C4_counterexample :
    okView (K0.SendCoinsFromAccountToModule ConversionMultiplier stRichDust A0
        escrowName [Coin.mk aoraiDenom 5]) [(A0, aoraiDenom)]
      = some ([1999999999995],
          [LedgerOp.send A0 (Addr.mod escrowName) aoraiDenom 5])
    ∧ ¬ ((1999999999995 : Int) < ConversionMultiplier) := by
  constructor
  · decide
  · decide

/-- Claim C4 (amended): after every successful SendCoinsFromAccountToModule
the source account holds strictly less than one settlement unit of
high-precision dust, unless its settlement balance at completion already
covers the whole-unit count of its high-precision balance, in which case the
sweep is skipped; symmetrically for the recipient of a successful
SendCoinsFromModuleToAccount. -/
theorem C4_dust_bound_amended (ebk : EvmBankKeeper) (M : Int) (hM : 0 < M)
    (hden : ebk.EvmDenom ≠ ebk.CosmosDenom) :
    (∀ (st : BankState) (n : Nat) (m : String) (amt : List Coin) (s : BankState),
      ebk.SendCoinsFromAccountToModule M st (Addr.base n) m amt = .ok s →
      s.bal (Addr.base n) ebk.EvmDenom < M
      ∨ (s.bal (Addr.base n) ebk.EvmDenom).tdiv M
          ≤ s.bal (Addr.base n) ebk.CosmosDenom)
    ∧ (∀ (st : BankState) (m : String) (n : Nat) (amt : List Coin) (s : BankState),
      ebk.SendCoinsFromModuleToAccount M st m (Addr.base n) amt = .ok s →
      s.bal (Addr.base n) ebk.EvmDenom < M
      ∨ (s.bal (Addr.base n) ebk.EvmDenom).tdiv M
          ≤ s.bal (Addr.base n) ebk.CosmosDenom) := by
  constructor
  · intro st n m amt s h
    obtain ⟨st2, h2⟩ := sendToModule_last h
    exact convertRemaining_dust ebk M hM hden st2 m n s h2
  · intro st m n amt s h
    obtain ⟨st2, h2⟩ := sendToAccount_last h
    exact convertRemaining_dust ebk M hM hden st2 m n s h2

/-- Whether a successful result leaves the account dust-bounded or skipped,
as the amended claim C4 states. -/
def dustOkB (r : Except Err BankState) (a : Addr) (cd ed : Denom) (M : Int) :
    Bool :=
  match r with
  | .ok s => decide (s.bal a ed < M) || decide ((s.bal a ed).tdiv M ≤ s.bal a cd)
  | .error _ => false

/-- State where the escrow module holds 2 settlement units. -/
def stEscrow2 : BankState :=
  ⟨fun a d => if a = Addr.mod escrowName ∧ d = oraiDenom then 2 else 0, []⟩

/-- Witness for the amended C4 in both directions. -/
theorem C4_dust_bound_amended_witness :
    dustOkB (K0.SendCoinsFromAccountToModule 1000000 stScenarioA6 A0 escrowName
        [Coin.mk aoraiDenom 5200000]) A0 oraiDenom aoraiDenom 1000000 = true
    ∧ dustOkB (K0.SendCoinsFromModuleToAccount ConversionMultiplier stEscrow2
        escrowName A0 [Coin.mk aoraiDenom ConversionMultiplier]) A0 oraiDenom
        aoraiDenom ConversionMultiplier = true := by
  constructor
  · cases hrun : K0.SendCoinsFromAccountToModule 1000000 stScenarioA6 A0
        escrowName [Coin.mk aoraiDenom 5200000] with
    | error e =>
      exfalso
      have hok : isOkB (K0.SendCoinsFromAccountToModule 1000000 stScenarioA6 A0
          escrowName [Coin.mk aoraiDenom 5200000]) = true := by decide
      rw [hrun] at hok
      simp [isOkB] at hok
    | ok s =>
      have hd := (C4_dust_bound_amended K0 1000000 (by decide) (by decide)).1
        stScenarioA6 0 escrowName [Coin.mk aoraiDenom 5200000] s hrun
      simp only [dustOkB, Bool.or_eq_true, decide_eq_true_eq]
      exact hd
  · cases hrun : K0.SendCoinsFromModuleToAccount ConversionMultiplier stEscrow2
        escrowName A0 [Coin.mk aoraiDenom ConversionMultiplier] with
    | error e =>
      exfalso
      have hok : isOkB (K0.SendCoinsFromModuleToAccount ConversionMultiplier
          stEscrow2 escrowName A0 [Coin.mk aoraiDenom ConversionMultiplier])
          = true := by decide
      rw [hrun] at hok
      simp [isOkB] at hok
    | ok s =>
      have hd := (C4_dust_bound_amended K0 ConversionMultiplier (by decide)
        (by decide)).2 stEscrow2 escrowName 0
        [Coin.mk aoraiDenom ConversionMultiplier] s hrun
      simp only [dustOkB, Bool.or_eq_true, decide_eq_true_eq]
      exact hd

/-- ConvertEvmCoinToCosmosCoin never decreases the cosmos balance of a user
account. -/
theorem convertEvm_cosmos_mono (ebk : EvmBankKeeper) (M : Int)
    (hden : ebk.EvmDenom ≠ ebk.CosmosDenom) (st : BankState) (n : Nat)
    (m : String) (q : Int) (s : BankState)
    (h : ebk.ConvertEvmCoinToCosmosCoin M st (Addr.base n) m
        (Coin.mk ebk.CosmosDenom q) = .ok s) :
    st.bal (Addr.base n) ebk.CosmosDenom ≤ s.bal (Addr.base n) ebk.CosmosDenom := by
  rcases convertEvm_final ebk M hden st n m q s h with
    ⟨_, heqs⟩ | ⟨_, _, heqs⟩ | ⟨hq, _, _, hcd2⟩
  · rw [heqs]
  · rw [heqs]
  · rw [hcd2]
    omega

/-- The sweep never decreases the cosmos balance of a user account. -/
theorem convertRemaining_cosmos_mono (ebk : EvmBankKeeper) (M : Int)
    (hM : 0 < M) (hden : ebk.EvmDenom ≠ ebk.CosmosDenom) (st : BankState)
    (m : String) (n : Nat) (s : BankState)
    (h : ebk.ConvertRemainingEvmCoinToCosmosCoin M st m (Addr.base n) = .ok s) :
    st.bal (Addr.base n) ebk.CosmosDenom ≤ s.bal (Addr.base n) ebk.CosmosDenom := by
  obtain ⟨hB0, h2⟩ := convertRemaining_as_convertEvm hM h
  exact convertEvm_cosmos_mono ebk M hden st n m _ s h2

/-- ConvertOneCosmosCoinToEvmCoin decreases the cosmos balance of a user
account by at most one unit. -/
theorem convertOne_cosmos_bound (ebk : EvmBankKeeper) (M : Int)
    (hden : ebk.EvmDenom ≠ ebk.CosmosDenom) (st : BankState) (n : Nat)
    (m : String) (c : Coin) (s : BankState)
    (h : ebk.ConvertOneCosmosCoinToEvmCoin M st (Addr.base n) m c = .ok s) :
    st.bal (Addr.base n) ebk.CosmosDenom - 1
      ≤ s.bal (Addr.base n) ebk.CosmosDenom := by
  rcases convertOne_final ebk M hden st n m c s h with heqs | ⟨h1, _⟩
  · rw [heqs]
    omega
  · rw [h1]

/-- Claim C5: a single SendCoinsFromAccountToModule call converts at most one
settlement unit of the sender settlement balance into high-precision units:
beyond the whole-unit part of the requested amount (which is sent, not
converted), the sender settlement balance drops by at most one. -/
theorem C5_bounded_conversion (ebk : EvmBankKeeper) (M : Int) (hM : 0 < M)
    (hden : ebk.EvmDenom ≠ ebk.CosmosDenom) (st : BankState) (n : Nat)
    (m : String) (amt : List Coin) (orai : Coin) (rem : Int) (s : BankState)
    (hsplit : SplitAoraiCoins M amt ebk.EvmDenom ebk.CosmosDenom
      = .ok (orai, rem))
    (h : ebk.SendCoinsFromAccountToModule M st (Addr.base n) m amt = .ok s) :
    st.bal (Addr.base n) ebk.CosmosDenom - s.bal (Addr.base n) ebk.CosmosDenom
      ≤ orai.amount + 1 := by
  obtain ⟨hnn, hdenom⟩ := split_ok_shape hsplit
  unfold EvmBankKeeper.SendCoinsFromAccountToModule at h
  simp only [] at h
  rw [hsplit] at h
  simp only [] at h
  split at h
  next e heq1 => cases h
  next st1 heq1 =>
    have hb1 : st.bal (Addr.base n) ebk.CosmosDenom - orai.amount
        ≤ st1.bal (Addr.base n) ebk.CosmosDenom := by
      split at heq1
      next hpos =>
        split at heq1
        next e heq => cases heq1
        next sta heq =>
          have horai : orai = Coin.mk ebk.CosmosDenom orai.amount := by
            cases orai
            simp only [Coin.mk.injEq]
            exact ⟨hdenom, trivial⟩
          rw [horai] at heq
          have hmono := convertEvm_cosmos_mono ebk M hden st n m orai.amount
            sta heq
          obtain ⟨hf, rfl⟩ := bkSend_ok heq1
          have hcomp : applyOp sta.bal
              (LedgerOp.send (Addr.base n) (Addr.mod m) orai.denom orai.amount)
              (Addr.base n) ebk.CosmosDenom
              = sta.bal (Addr.base n) ebk.CosmosDenom - orai.amount := by
            rw [hdenom]
            simp [applyOp, setBal]
          simp only [hcomp]
          omega
      next hpos =>
        cases heq1
        omega
    split at h
    next e heq2 => cases h
    next st2 heq2 =>
      have hb2 : st1.bal (Addr.base n) ebk.CosmosDenom - 1
          ≤ st2.bal (Addr.base n) ebk.CosmosDenom := by
        split at heq2
        next hpos =>
          split at heq2
          next e heq => cases heq2
          next stb heq =>
            have hbound := convertOne_cosmos_bound ebk M hden st1 n m
              (Coin.mk ebk.EvmDenom rem) stb heq
            obtain ⟨hf, rfl⟩ := bkSend_ok heq2
            have hcomp : applyOp stb.bal
                (LedgerOp.send (Addr.base n) (Addr.mod m) ebk.EvmDenom rem)
                (Addr.base n) ebk.CosmosDenom
                = stb.bal (Addr.base n) ebk.CosmosDenom := by
              simp [applyOp, setBal, hden, Ne.symm hden]
            simp only [hcomp]
            omega
        next hpos =>
          cases heq2
          omega
      have hb3 := convertRemaining_cosmos_mono ebk M hM hden st2 m n s h
      omega

/-- State for the C5 witness: A0 holds 5 settlement units. -/
def stFiveCosmos : BankState :=
  ⟨fun a d => if a = A0 ∧ d = oraiDenom then 5 else 0, []⟩

/-- Whether a successful result satisfies the C5 bound. -/
def c5OkB (r : Except Err BankState) (a : Addr) (cd : Denom)
    (initBal oraiAmt : Int) : Bool :=
  match r with
  | .ok s => decide (initBal - s.bal a cd ≤ oraiAmt + 1)
  | .error _ => false

/-- Witness for C5: sending one whole unit plus 7 dust from a sender with 5
settlement units and no evm balance converts exactly one extra settlement
unit (the settlement balance drops from 5 to 3 = 5 - (1 + 1)). -/
theorem C5_bounded_conversion_witness :
    c5OkB (K0.SendCoinsFromAccountToModule ConversionMultiplier stFiveCosmos
        A0 escrowName [Coin.mk aoraiDenom 1000000000007]) A0 oraiDenom 5 1
      = true := by
  cases hrun : K0.SendCoinsFromAccountToModule ConversionMultiplier
      stFiveCosmos A0 escrowName [Coin.mk aoraiDenom 1000000000007] with
  | error e =>
    exfalso
    have hok : isOkB (K0.SendCoinsFromAccountToModule ConversionMultiplier
        stFiveCosmos A0 escrowName [Coin.mk aoraiDenom 1000000000007])
        = true := by decide
    rw [hrun] at hok
    simp [isOkB] at hok
  | ok s =>
    have hb := C5_bounded_conversion K0 ConversionMultiplier (by decide)
      (by decide) stFiveCosmos 0 escrowName
      [Coin.mk aoraiDenom 1000000000007] (Coin.mk oraiDenom 1) 7 s
      (by rfl) hrun
    simp only [c5OkB, decide_eq_true_eq]
    exact hb

/-- Claim C10: in both conversion helpers, when the account is short and the
helper runs, the delivering leg depends on the named module balance of the
denomination to be delivered: if it is at most the needed amount, fresh coins
are minted under the evm module and sent from the evm module; otherwise they
are sent from the named module without minting.  In both cases the coins
taken from the account enter the named module by a send (no burn occurs). -/
theorem C10_fallback_mint (ebk : EvmBankKeeper) (M : Int)
    (hden : ebk.EvmDenom ≠ ebk.CosmosDenom) :
    (∀ (st : BankState) (addr : Addr) (m : String) (q : Int) (s : BankState),
      0 < q → st.bal addr ebk.CosmosDenom < q →
      ebk.ConvertEvmCoinToCosmosCoin M st addr m (Coin.mk ebk.CosmosDenom q)
        = .ok s →
      s.log = st.log
        ++ (LedgerOp.send addr (Addr.mod m) ebk.EvmDenom (q * M) ::
          (if st.bal (Addr.mod m) ebk.CosmosDenom ≤ q then
            [LedgerOp.mint ModuleName ebk.CosmosDenom q,
             LedgerOp.send (Addr.mod ModuleName) addr ebk.CosmosDenom q]
           else [LedgerOp.send (Addr.mod m) addr ebk.CosmosDenom q])))
    ∧ (∀ (st : BankState) (addr : Addr) (m : String) (c : Coin) (s : BankState),
      st.bal addr ebk.EvmDenom < c.amount →
      ebk.ConvertOneCosmosCoinToEvmCoin M st addr m c = .ok s →
      s.log = st.log
        ++ (LedgerOp.send addr (Addr.mod m) ebk.CosmosDenom 1 ::
          (if st.bal (Addr.mod m) ebk.EvmDenom ≤ M then
            [LedgerOp.mint ModuleName ebk.EvmDenom M,
             LedgerOp.send (Addr.mod ModuleName) addr ebk.EvmDenom M]
           else [LedgerOp.send (Addr.mod m) addr ebk.EvmDenom M]))) := by
  constructor
  · intro st addr m q s hq hshort h
    unfold EvmBankKeeper.ConvertEvmCoinToCosmosCoin at h
    simp only [] at h
    split at h
    next hq2 => exact absurd hq (by simpa using hq2)
    next hq2 =>
      split at h
      next hle => exact absurd hle (by simpa using not_le.mpr hshort)
      next hgt =>
        split at h
        next e heq => cases h
        next st1 heq =>
          obtain ⟨hf, rfl⟩ := bkSend_ok heq
          have hmb : applyOp st.bal
              (LedgerOp.send addr (Addr.mod m) ebk.EvmDenom (q * M))
              (Addr.mod m) ebk.CosmosDenom
              = st.bal (Addr.mod m) ebk.CosmosDenom :=
            applyOp_send_other_denom st.bal addr (Addr.mod m) (Addr.mod m)
              ebk.EvmDenom ebk.CosmosDenom (q * M) (Ne.symm hden)
          split at h
          next hmle =>
            split at h
            next e2 heq2 => cases h
            next st2 heq2 =>
              obtain rfl := bkMint_ok heq2
              obtain ⟨hf2, rfl⟩ := bkSend_ok h
              rw [if_pos (by rw [← hmb]; exact hmle)]
              simp [List.append_assoc]
          next hmgt =>
            obtain ⟨hf2, rfl⟩ := bkSend_ok h
            rw [if_neg (by rw [← hmb]; exact hmgt)]
            simp [List.append_assoc]
  · intro st addr m c s hshort h
    unfold EvmBankKeeper.ConvertOneCosmosCoinToEvmCoin at h
    simp only [one_mul] at h
    split at h
    next hle => exact absurd hle (by simpa using not_le.mpr hshort)
    next hgt =>
      split at h
      next e heq => cases h
      next st1 heq =>
        obtain ⟨hf, rfl⟩ := bkSend_ok heq
        have hmb : applyOp st.bal
            (LedgerOp.send addr (Addr.mod m) ebk.CosmosDenom 1)
            (Addr.mod m) ebk.EvmDenom
            = st.bal (Addr.mod m) ebk.EvmDenom :=
          applyOp_send_other_denom st.bal addr (Addr.mod m) (Addr.mod m)
            ebk.CosmosDenom ebk.EvmDenom 1 hden
        split at h
        next hmle =>
          split at h
          next e2 heq2 => cases h
          next st2 heq2 =>
            obtain rfl := bkMint_ok heq2
            obtain ⟨hf2, rfl⟩ := bkSend_ok h
            rw [if_pos (by rw [← hmb]; exact hmle)]
            simp [List.append_assoc]
        next hmgt =>
          obtain ⟨hf2, rfl⟩ := bkSend_ok h
          rw [if_neg (by rw [← hmb]; exact hmgt)]
          simp [List.append_assoc]

/-- The result log of a ledger call, or none on error. -/
def okLogOf (r : Except Err BankState) : Option (List LedgerOp) :=
  match r with
  | .ok s => some s.log
  | .error _ => none

/-- State for the first C10 witness: A0 holds five whole units of evm coins
and no cosmos coins; every module account is empty. -/
def stFiveEvm : BankState :=
  ⟨fun a d => if a = A0 ∧ d = aoraiDenom then 5000000000000 else 0, []⟩

/-- State for the second C10 witness: A0 holds 3 cosmos units and no evm
coins; every module account is empty. -/
def stThreeCosmos : BankState :=
  ⟨fun a d => if a = A0 ∧ d = oraiDenom then 3 else 0, []⟩

/-- Witness for C10: with empty escrow modules, both helpers take the mint
fallback: the coins leave the account by a send into the named module, fresh
coins are minted under the evm module and delivered from it. -/
theorem C10_fallback_mint_witness :
    okLogOf (K0.ConvertEvmCoinToCosmosCoin ConversionMultiplier stFiveEvm A0
        escrowName (Coin.mk oraiDenom 2))
      = some [LedgerOp.send A0 (Addr.mod escrowName) aoraiDenom 2000000000000,
          LedgerOp.mint ModuleName oraiDenom 2,
          LedgerOp.send (Addr.mod ModuleName) A0 oraiDenom 2]
    ∧ okLogOf (K0.ConvertOneCosmosCoinToEvmCoin ConversionMultiplier
        stThreeCosmos A0 escrowName (Coin.mk aoraiDenom 7))
      = some [LedgerOp.send A0 (Addr.mod escrowName) oraiDenom 1,
          LedgerOp.mint ModuleName aoraiDenom 1000000000000,
          LedgerOp.send (Addr.mod ModuleName) A0 aoraiDenom 1000000000000] := by
  constructor
  · cases hrun : K0.ConvertEvmCoinToCosmosCoin ConversionMultiplier stFiveEvm
        A0 escrowName (Coin.mk oraiDenom 2) with
    | error e =>
      exfalso
      have hok : isOkB (K0.ConvertEvmCoinToCosmosCoin ConversionMultiplier
          stFiveEvm A0 escrowName (Coin.mk oraiDenom 2)) = true := by decide
      rw [hrun] at hok
      simp [isOkB] at hok
    | ok s =>
      have hl := (C10_fallback_mint K0 ConversionMultiplier (by decide)).1
        stFiveEvm A0 escrowName 2 s (by decide) (by decide) hrun
      simp only [okLogOf]
      rw [hl]
      rfl
  · cases hrun : K0.ConvertOneCosmosCoinToEvmCoin ConversionMultiplier
        stThreeCosmos A0 escrowName (Coin.mk aoraiDenom 7) with
    | error e =>
      exfalso
      have hok : isOkB (K0.ConvertOneCosmosCoinToEvmCoin ConversionMultiplier
          stThreeCosmos A0 escrowName (Coin.mk aoraiDenom 7)) = true := by
        decide
      rw [hrun] at hok
      simp [isOkB] at hok
    | ok s =>
      have hl := (C10_fallback_mint K0 ConversionMultiplier (by decide)).2
        stThreeCosmos A0 escrowName (Coin.mk aoraiDenom 7) s (by decide) hrun
      simp only [okLogOf]
      rw [hl]
      rfl

end EthermintEvmBank
